import Mathlib

/-!
Verification of the R2KS pairwise list-scoring program (`r2ks.cpp`).

The embedding below translates the C++ source directly:

* `calculateWeight` embeds `calculateWeight` (r2ks.cpp lines 58-64); the C
  `double` arithmetic is modelled over `ℚ` (the formulas involve only
  comparisons, `+`, `*`, `/`, which the idealised rationals track exactly).
* `HistE`, `walkIns`, `stepScore`, `r2ksRun` embed the history-based scorer
  `scoreLists` (lines 73-195).  The per-step candidate values feeding the
  running maximum `rvalue` are collected alongside the `rvalue` fold so that
  theorems can speak about "all candidates of a step".  The final C++ return
  value is `rvalue * sqrt(num_genes)`; the `sqrt` factor is applied at the
  `ℝ` level inside theorem statements, keeping every definition computable.
* `buildBuff` embeds the rank-lookup construction (lines 88-92); the C++
  `buff[gene_list1[i]] = i` write is an unchecked `std::vector` access, which
  is undefined behaviour when out of range.  The model uses `List.set`, which
  drops an out-of-range write; the point of the safety claims is precisely
  that the source performs no bounds check at all.
* `readLineIndex` embeds the file reader (lines 214-236): the stream
  extraction `fin >> gene_expression` skips any whitespace including
  newlines, so after skipping `idx` lines the reader consumes the first
  `num_genes` tokens of the *remainder of the file*, regardless of line
  boundaries, and stops early at end of input.  A file is modelled as a list
  of lines, each a list of numeric tokens.
* `testNumbers`, `totalTests`, `chunkFor`, `assignedPairs` embed the MPI
  master's pair enumeration and static chunk assignment (lines 298-343),
  at pair granularity (the source flattens pairs into an int vector and
  doubles every count/offset).
* Unsigned-integer overflow is not modelled (`num_genes * num_genes` etc. are
  exact in `ℕ`); all claims here concern algorithm structure at sizes far
  below 2^16, where the machine arithmetic is exact as well.
-/

/-- One entry of the scorer's history: a rank position in the second list
together with the cumulative weighted value (r2ks.cpp lines 101-104). -/
structure HistE where
  pos_y : ℕ
  value : ℚ
deriving DecidableEq, Repr

/-- Embedding of `calculateWeight(idx, pivot)` (r2ks.cpp lines 58-64). -/
def calculateWeight (idx wpivot : ℕ) : ℚ :=
  if wpivot = 0 then 1
  else
    let h : ℚ := (wpivot : ℚ) - (idx : ℚ)
    if h < 0 then 1 else h * (h + 1) / 2

/-- Embedding of `total_weight` accumulation (r2ks.cpp lines 82-86). -/
def totalWeight (len wpivot : ℕ) : ℚ :=
  (List.range len).foldl (fun acc i => acc + calculateWeight i wpivot) 0

/-- Embedding of the rank-lookup construction (r2ks.cpp lines 88-92):
`buff` is zero-initialised with `gene_list0.size()` slots and then
`buff[gene_list1[i]] = i` for each `i`.  An out-of-range gene identifier is
an unchecked (undefined-behaviour) vector write in the source; here the
write is dropped. -/
def buildBuff (len : ℕ) (gl1 : List ℕ) : List ℕ :=
  (List.range len).foldl (fun b i => b.set (gl1.getD i 0) i) (List.replicate len 0)

/-- The ternary `rvalue = nvalue > rvalue ? nvalue : rvalue` used at every
rvalue-update site (r2ks.cpp lines 161, 175, 188, 379, 500). -/
def rmax (r nv : ℚ) : ℚ :=
  if r < nv then nv else r

/-- The KS-statistic candidate computed for a history entry at step `i`
(r2ks.cpp lines 159-160, 173-174, 186-187):
`(value / total_weight) - ((pos_y+1)*(i+1)) * one_over`. -/
def candidateVal (tw ov : ℚ) (i : ℕ) (e : HistE) : ℚ :=
  e.value / tw - (((e.pos_y + 1) * (i + 1) : ℕ) : ℚ) * ov

/-- Embedding of the Case-B backward walk (r2ks.cpp lines 165-188):
`for (it--; it != history.begin() && it->pos_y > pivot; it--)` over the tail
of the history (the head is handled by the caller, since the loop stops at
`begin()` without executing its body there).  Processes the list of entries
after the head, returns the rewritten tail, the candidate values in the
order the source computes them (rightmost entry first, inserted entry last),
and whether the walk fell through to `begin()` (in which case the caller
inserts after the head). -/
def walkIns (piv : ℕ) (w : ℚ) (cand : HistE → ℚ) :
    List HistE → List HistE × List ℚ × Bool
  | [] => ([], [], true)
  | x :: xs =>
    match walkIns piv w cand xs with
    | (ys, cs, true) =>
      if piv < x.pos_y then
        (⟨x.pos_y, x.value + w⟩ :: ys, cs ++ [cand ⟨x.pos_y, x.value + w⟩], true)
      else
        (x :: ⟨piv, x.value + w⟩ :: ys, cs ++ [cand ⟨piv, x.value + w⟩], false)
    | (ys, cs, false) => (x :: ys, cs, false)

/-- One iteration of the main loop of `scoreLists` for `i ≥ 1`
(r2ks.cpp lines 137-192).  Returns the new history and the list of
candidate values computed at the rvalue-update sites of this step, in
execution order. -/
def stepScore (wp : ℕ) (tw ov : ℚ) (gl0 buff : List ℕ) (i : ℕ)
    (hist : List HistE) : List HistE × List ℚ :=
  let ivalue := gl0.getD i 0
  let piv := buff.getD ivalue 0
  let iw := calculateWeight i wp
  let jw := calculateWeight piv wp
  let w := if iw < jw then iw else jw
  let lh := (hist.getLast?).getD ⟨0, 0⟩
  if lh.pos_y < piv then
    (hist ++ [⟨piv, lh.value + w⟩], [candidateVal tw ov i ⟨piv, lh.value + w⟩])
  else
    match hist with
    | [] => ([], [])
    | h0 :: hs =>
      match walkIns piv w (candidateVal tw ov i) hs with
      | (ys, cs, true) =>
        (h0 :: ⟨piv, h0.value + w⟩ :: ys,
          cs ++ [candidateVal tw ov i ⟨piv, h0.value + w⟩])
      | (ys, cs, false) => (h0 :: ys, cs)

/-- Folding one step into the running state `(history, all candidates so far,
rvalue)`; the rvalue is updated once per candidate, in candidate order,
exactly as the source applies `rvalue = nvalue > rvalue ? nvalue : rvalue`
at each site. -/
def runStep (wp : ℕ) (tw ov : ℚ) (gl0 buff : List ℕ)
    (acc : List HistE × List ℚ × ℚ) (i : ℕ) : List HistE × List ℚ × ℚ :=
  let sc := stepScore wp tw ov gl0 buff i acc.1
  (sc.1, acc.2.1 ++ sc.2, sc.2.foldl rmax acc.2.2)

/-- The main loop of `scoreLists` given the precomputed quantities and the
step-0 history entry (r2ks.cpp lines 107-192): steps `1 .. n-1` folded over
the initial state `([h0], no candidates, rvalue = 0)`.  Note that the
step-0 block (lines 114-132) only pushes the first history entry and
updates no rvalue. -/
def r2ksRunAux (wp : ℕ) (tw ov : ℚ) (gl0 buff : List ℕ) (h0 : HistE)
    (steps : List ℕ) : List HistE × List ℚ × ℚ :=
  steps.foldl (runStep wp tw ov gl0 buff) ([h0], [], 0)

/-- Embedding of `scoreLists(options, gene_list0, gene_list1)`
(r2ks.cpp lines 73-195) up to the final `* sqrt(num_genes)` factor:
returns the final history, the candidate values of all steps, and the final
`rvalue`. -/
def r2ksRun (n wp : ℕ) (gl0 gl1 : List ℕ) : List HistE × List ℚ × ℚ :=
  r2ksRunAux wp (totalWeight gl0.length wp) (1 / (((n * n : ℕ)) : ℚ)) gl0
    (buildBuff gl0.length gl1)
    ⟨(buildBuff gl0.length gl1).getD (gl0.getD 0 0) 0, calculateWeight 0 wp⟩
    (List.range' 1 (n - 1))

/-- The history at the end of a `scoreLists` call. -/
def r2ksHistory (n wp : ℕ) (gl0 gl1 : List ℕ) : List HistE :=
  (r2ksRun n wp gl0 gl1).1

/-- All candidate values computed during a `scoreLists` call, in order. -/
def r2ksCands (n wp : ℕ) (gl0 gl1 : List ℕ) : List ℚ :=
  (r2ksRun n wp gl0 gl1).2.1

/-- The final `rvalue` of a `scoreLists` call; the C++ function returns
`rvalue * sqrt(num_genes)` (r2ks.cpp line 194). -/
def scoreRvalue (n wp : ℕ) (gl0 gl1 : List ℕ) : ℚ :=
  (r2ksRun n wp gl0 gl1).2.2

/-- The per-pair score reported by `main` / `clientProcess`
(r2ks.cpp lines 495-501 and 373-380), at the rvalue level: the forward
score, and when two-tailed mode is on, `tvalue > rvalue ? tvalue : rvalue`
with the second list reversed end-to-end. -/
def reportedRvalue (tt : Bool) (n wp : ℕ) (gl0 gl1 : List ℕ) : ℚ :=
  let rv := scoreRvalue n wp gl0 gl1
  if tt then rmax rv (scoreRvalue n wp gl0 gl1.reverse) else rv

/-- Strictly-increasing `pos_y` ordering of a history, as asserted by the
specification's data model. -/
def historyOrdered (l : List HistE) : Prop :=
  List.Chain' (fun a b => a.pos_y < b.pos_y) l

instance (l : List HistE) : Decidable (historyOrdered l) :=
  decidable_of_iff (List.Chain' (fun a b : HistE => a.pos_y < b.pos_y) l) Iff.rfl

/-- The candidate of the step-0 history entry, with `i = 0` — the quantity
the claim about step coverage says enters the running maximum. -/
def step0Candidate (n wp : ℕ) (gl0 gl1 : List ℕ) : ℚ :=
  candidateVal (totalWeight gl0.length wp) (1 / (((n * n : ℕ)) : ℚ)) 0
    ⟨(buildBuff gl0.length gl1).getD (gl0.getD 0 0) 0, calculateWeight 0 wp⟩

/-- Formalisation of the claim's reading of the running maximum: the step-0
candidate also feeds `rvalue`, followed by the candidates of all later
steps. -/
def scoreRvalueSpecStep0 (n wp : ℕ) (gl0 gl1 : List ℕ) : ℚ :=
  (r2ksCands n wp gl0 gl1).foldl rmax (rmax 0 (step0Candidate n wp gl0 gl1))

/-- Embedding of the MPI master's pair enumeration (r2ks.cpp lines 305-311):
`for (i = 1; i < num_lists + 1; ++i) for (j = i; j < num_lists + 1; ++j)`,
collecting `(i, j)`. -/
def testNumbers (L : ℕ) : List (ℕ × ℕ) :=
  (List.range' 1 L).flatMap (fun i => (List.range' i (L + 1 - i)).map (fun j => (i, j)))

/-- Embedding of `total_tests = num_lists * (num_lists - 1) / 2`
(r2ks.cpp line 299). -/
def totalTests (L : ℕ) : ℕ :=
  L * (L - 1) / 2

/-- Pairs per worker: `total_tests / (num_procs - 1)` (r2ks.cpp line 300). -/
def perNode (L P : ℕ) : ℕ :=
  totalTests L / (P - 1)

/-- Remainder pairs: `total_tests % (num_procs - 1)` (r2ks.cpp line 301). -/
def extraTests (L P : ℕ) : ℕ :=
  totalTests L % (P - 1)

/-- The chunk of the enumeration sent to worker `k` (1-based), at pair
granularity (r2ks.cpp lines 317-329): offset `perNode * (k-1)`, count
`perNode`, plus the remainder for the last worker `k = P - 1`. -/
def chunkFor (L P k : ℕ) : List (ℕ × ℕ) :=
  ((testNumbers L).drop (perNode L P * (k - 1))).take
    (perNode L P + if k = P - 1 then extraTests L P else 0)

/-- All pairs assigned to some worker: chunks of workers `1 .. P-1`
concatenated in worker order. -/
def assignedPairs (L P : ℕ) : List (ℕ × ℕ) :=
  ((List.range' 1 (P - 1)).map (chunkFor L P)).flatten

/-- Embedding of `readLineIndex` (r2ks.cpp lines 214-236).  The file is a
list of lines, each a list of numeric tokens.  The source skips `idx`
newline-delimited lines, then `while (fin >> gene_expression && gidx < n)`
stores `gene_list[gene_expression] = gidx` for the first `n` extracted
tokens; stream extraction skips newlines like any whitespace, so tokens are
drawn from the flattened remainder of the file, and extraction simply stops
at end of input.  `gene_list` is a zero-initialised vector of size `n`; an
out-of-range token produces an unchecked (undefined-behaviour) vector write
in the source, dropped here by `List.set`. -/
def readLineIndex (n idx : ℕ) (file : List (List ℕ)) : List ℕ :=
  ((((file.drop idx).flatten).take n).enum).foldl
    (fun gl p => gl.set p.2 p.1) (List.replicate n 0)

/-! ## Helper lemmas -/

theorem rmax_eq_max (r c : ℚ) : rmax r c = max r c := by
  unfold rmax
  rcases lt_or_le r c with h | h
  · rw [if_pos h, max_eq_right h.le]
  · rw [if_neg (not_lt.2 h), max_eq_left h]

theorem foldl_rmax_eq_max (l : List ℚ) (r : ℚ) :
    l.foldl rmax r = l.foldl max r := by
  induction l generalizing r with
  | nil => rfl
  | cons a l ih => simp [List.foldl_cons, rmax_eq_max, ih]

theorem init_le_foldl_max (l : List ℚ) (r : ℚ) : r ≤ l.foldl max r := by
  induction l generalizing r with
  | nil => exact le_refl r
  | cons a l ih => exact le_trans (le_max_left r a) (ih (max r a))

theorem runFold_rvalue (wp : ℕ) (tw ov : ℚ) (gl0 buff : List ℕ) (L : List ℕ) :
    ∀ (h : List HistE) (cs : List ℚ),
      (L.foldl (runStep wp tw ov gl0 buff) (h, cs, cs.foldl rmax 0)).2.2
        = ((L.foldl (runStep wp tw ov gl0 buff) (h, cs, cs.foldl rmax 0)).2.1).foldl rmax 0 := by
  induction L with
  | nil => intro h cs; rfl
  | cons i L ih =>
    intro h cs
    have hstep : runStep wp tw ov gl0 buff (h, cs, cs.foldl rmax 0) i
        = ((stepScore wp tw ov gl0 buff i h).1,
            cs ++ (stepScore wp tw ov gl0 buff i h).2,
            (cs ++ (stepScore wp tw ov gl0 buff i h).2).foldl rmax 0) := by
      simp [runStep, List.foldl_append]
    rw [List.foldl_cons, hstep]
    exact ih _ _

theorem scoreRvalue_eq_foldl (n wp : ℕ) (gl0 gl1 : List ℕ) :
    scoreRvalue n wp gl0 gl1 = (r2ksCands n wp gl0 gl1).foldl rmax 0 := by
  unfold scoreRvalue r2ksCands r2ksRun r2ksRunAux
  exact runFold_rvalue wp (totalWeight gl0.length wp) (1 / (((n * n : ℕ)) : ℚ))
    gl0 (buildBuff gl0.length gl1) (List.range' 1 (n - 1)) _ []

theorem cast_max_mul_of_nonneg (a b : ℚ) (c : ℝ) (hc : 0 ≤ c) :
    ((max a b : ℚ) : ℝ) * c = max ((a : ℝ) * c) ((b : ℝ) * c) := by
  rcases le_total a b with h | h
  · rw [max_eq_right h,
      max_eq_right (mul_le_mul_of_nonneg_right (by exact_mod_cast h) hc)]
  · rw [max_eq_left h,
      max_eq_left (mul_le_mul_of_nonneg_right (by exact_mod_cast h) hc)]

/-! ## Claim theorems -/

/-- Claim C6 counterexample: the claim asserts `weight(i, p) = 1.0` for all
`i ≥ p` (pivot `p > 0`), but at `i = p` the source computes `h = 0` and
returns `h*(h+1)/2 = 0`, not `1`. -/
theorem calculateWeight_at_pivot_ne_one :
    calculateWeight 1 1 = 0 ∧ calculateWeight 1 1 ≠ 1 := by
  with_unfolding_all decide

/-- Claim C6 (amended): for pivot `p > 0` the weight is monotonically
non-increasing up to the pivot (`weight(i+1,p) ≤ weight(i,p)` for `i < p`),
equals `1` strictly beyond the pivot (`i > p`), and equals `0` at `i = p`. -/
theorem calculateWeight_monotone_amended (p i : ℕ) (hp : 0 < p) :
    (i < p → calculateWeight (i + 1) p ≤ calculateWeight i p) ∧
    (p < i → calculateWeight i p = 1) ∧
    calculateWeight p p = 0 := by
  have hp0 : p ≠ 0 := hp.ne'
  refine ⟨?_, ?_, ?_⟩
  · intro hip
    have h1 : (1 : ℚ) ≤ (p : ℚ) - (i : ℚ) := by
      have : (i : ℚ) + 1 ≤ (p : ℚ) := by exact_mod_cast hip
      linarith
    unfold calculateWeight
    rw [if_neg hp0, if_neg hp0]
    have hc0 : ¬ ((p : ℚ) - (i : ℚ) < 0) := by linarith
    have hc1 : ¬ ((p : ℚ) - ((i : ℕ) + 1 : ℕ) < 0) := by push_cast; linarith
    rw [if_neg hc0, if_neg hc1]
    push_cast
    nlinarith [h1]
  · intro hpi
    have hlt : ((p : ℚ) - (i : ℚ)) < 0 := by
      have : (p : ℚ) < (i : ℚ) := by exact_mod_cast hpi
      linarith
    unfold calculateWeight
    rw [if_neg hp0, if_pos hlt]
  · unfold calculateWeight
    rw [if_neg hp0]
    norm_num

/-- Witness for the amended claim C6 at `p = 2`. -/
theorem calculateWeight_monotone_amended_witness :
    calculateWeight 2 2 ≤ calculateWeight 1 2 ∧
    calculateWeight 3 2 = 1 ∧ calculateWeight 2 2 = 0 :=
  ⟨(calculateWeight_monotone_amended 2 1 (by decide)).1 (by decide),
    (calculateWeight_monotone_amended 2 3 (by decide)).2.1 (by decide),
    (calculateWeight_monotone_amended 2 1 (by decide)).2.2⟩

/-- Claim C7: `weight(i, 0) = 1`; for any pivot the weight is exactly the
source's formula (`1` when `pivot = 0`, else `1` when `h = pivot - i < 0`,
else the triangular form `h*(h+1)/2`), and the result is non-negative.
Determinism and purity hold by construction: `calculateWeight` is a
function of its arguments. -/
theorem calculateWeight_formula_nonneg (idx p : ℕ) :
    calculateWeight idx 0 = 1 ∧ 0 ≤ calculateWeight idx p ∧
    calculateWeight idx p =
      (if p = 0 then 1
        else if ((p : ℚ) - (idx : ℚ)) < 0 then 1
        else ((p : ℚ) - (idx : ℚ)) * (((p : ℚ) - (idx : ℚ)) + 1) / 2) := by
  refine ⟨by simp [calculateWeight], ?_, rfl⟩
  by_cases h0 : p = 0
  · simp [calculateWeight, h0]
  · have hew : calculateWeight idx p =
        (if ((p : ℚ) - (idx : ℚ)) < 0 then 1
          else ((p : ℚ) - (idx : ℚ)) * (((p : ℚ) - (idx : ℚ)) + 1) / 2) := by
      simp [calculateWeight, h0]
    rw [hew]
    by_cases hlt : ((p : ℚ) - (idx : ℚ)) < 0
    · rw [if_pos hlt]; norm_num
    · rw [if_neg hlt]
      have hge : (0 : ℚ) ≤ (p : ℚ) - (idx : ℚ) := not_lt.1 hlt
      exact div_nonneg (mul_nonneg hge (by linarith)) (by norm_num)

/-- Claim C1: the master's enumeration does contain all unordered pairs
`1 ≤ i ≤ j ≤ L` — `L*(L+1)/2 = 6` of them for `L = 3` — and the chunks are
contiguous and disjoint, but their union is only the first
`total_tests = L*(L-1)/2 = 3` pairs of the enumeration: with
`num_lists = 3` and `num_procs = 3` the self-pair `(1,1)` is distributed
while the genuine pair `(2,3)` (and `(2,2)`, `(3,3)`) is never assigned to
any worker.  The partition therefore has gaps, contradicting the
"no duplication, no gaps" contract. -/
theorem masterProcess_pair_partition_bug :
    (testNumbers 3).length = 6 ∧
    assignedPairs 3 3 = [(1, 1), (1, 2), (1, 3)] ∧
    (2, 3) ∈ testNumbers 3 ∧ (2, 3) ∉ assignedPairs 3 3 := by
  with_unfolding_all decide

/-- Claim C2: in the Case-B backward walk the source loop
`for (it--; it != history.begin() && it->pos_y > pivot; it--)` exits as
soon as `it` reaches `begin()`, without testing or updating the head entry.
With `num_genes = 3`, pivot `0`, `list_a = [0,1,2]`, `list_b = [2,0,1]`,
step `i = 2` is Case B with `pivot_pos = 0` and `w = 1`: the head entry
`(pos_y = 1, value = 1)` has `pos_y > pivot_pos` yet keeps value `1`
(the claim requires `1 + w = 2`), and the new entry `(0, 2)` is inserted
after that head entry even though its `pos_y` does not exceed the head's,
so the walk did not stop at an entry with `pos_y ≤ pivot_pos`. -/
theorem scoreLists_caseB_head_entry_not_updated :
    r2ksHistory 3 0 [0, 1, 2] [2, 0, 1] = [⟨1, 1⟩, ⟨0, 2⟩, ⟨2, 3⟩] := by
  with_unfolding_all decide

/-- Claim C3: the history is not always strictly increasing in `pos_y`.
With `num_genes = 2`, pivot `0`, `list_a = [0,1]`, `list_b = [1,0]`
(both permutations of `[0, 2)`), after step `i = 1` the history is
`[(1, 1), (0, 2)]`, whose `pos_y` sequence `1, 0` is decreasing: the
Case-B insert after the head entry breaks the ordering invariant. -/
theorem scoreLists_history_order_violation :
    r2ksHistory 2 0 [0, 1] [1, 0] = [⟨1, 1⟩, ⟨0, 2⟩] ∧
    ¬ historyOrdered (r2ksHistory 2 0 [0, 1] [1, 0]) := by
  have h1 : r2ksHistory 2 0 [0, 1] [1, 0] = [⟨1, 1⟩, ⟨0, 2⟩] := by
    with_unfolding_all decide
  refine ⟨h1, ?_⟩
  rw [h1]
  simp [historyOrdered, List.chain'_cons]

/-- Claim C4 counterexample: the first step `i = 0` of `scoreLists` only
pushes the initial history entry and never updates `rvalue`
(r2ks.cpp lines 114-132 contain no rvalue computation).  With
`num_genes = 2`, pivot `0`, both lists `[0,1]`, the step-0 entry's
candidate is `1/2 - 1/4 = 1/4`, the only later candidate is `0`, so the
claimed running maximum (step 0 included) is `1/4` while the source's
`rvalue` is `0`. -/
theorem scoreLists_step0_candidate_missing :
    scoreRvalue 2 0 [0, 1] [0, 1] = 0 ∧
    scoreRvalueSpecStep0 2 0 [0, 1] [0, 1] = 1 / 4 ∧
    scoreRvalue 2 0 [0, 1] [0, 1] ≠ scoreRvalueSpecStep0 2 0 [0, 1] [0, 1] := by
  with_unfolding_all decide

/-- Claim C4 (amended): step `i = 0` only initializes the History and
contributes no candidate; for every later step `i` from `1` to
`num_genes - 1` the candidate
`(value / total_weight) - (pos_y + 1)*(i + 1)/(num_genes * num_genes)` is
computed for exactly the entries touched in that step (the collected
`r2ksCands`), `rvalue` is the running maximum of all those candidates
starting from `0`, and `scoreLists` returns `rvalue * sqrt(num_genes)`
(the `sqrt` factor applied to `scoreRvalue`). -/
theorem scoreLists_rvalue_max_of_candidates (n wp : ℕ) (gl0 gl1 : List ℕ) :
    scoreRvalue n wp gl0 gl1 = (r2ksCands n wp gl0 gl1).foldl max 0 := by
  rw [scoreRvalue_eq_foldl, foldl_rmax_eq_max]

/-- Claim C5: with two-tailed scoring enabled the reported score — at the
final `rvalue * sqrt(num_genes)` level — equals the maximum of the forward
score and the score recomputed with `list_b` reversed end-to-end, and is
therefore never below the forward-only score. -/
theorem twoTailed_max_and_nondecrease (n wp : ℕ) (gl0 gl1 : List ℕ) :
    (reportedRvalue true n wp gl0 gl1 : ℝ) * Real.sqrt n
        = max ((scoreRvalue n wp gl0 gl1 : ℝ) * Real.sqrt n)
            ((scoreRvalue n wp gl0 gl1.reverse : ℝ) * Real.sqrt n) ∧
    (scoreRvalue n wp gl0 gl1 : ℝ) * Real.sqrt n
        ≤ (reportedRvalue true n wp gl0 gl1 : ℝ) * Real.sqrt n := by
  have h1 : reportedRvalue true n wp gl0 gl1
      = max (scoreRvalue n wp gl0 gl1) (scoreRvalue n wp gl0 gl1.reverse) := by
    unfold reportedRvalue
    simp only [if_pos]
    exact rmax_eq_max _ _
  constructor
  · rw [h1]
    exact cast_max_mul_of_nonneg _ _ _ (Real.sqrt_nonneg _)
  · rw [h1, cast_max_mul_of_nonneg _ _ _ (Real.sqrt_nonneg _)]
    exact le_max_left _ _

/-- Claim C8: the source contains no range check at all.  With
`num_genes = 2` and the selected line containing the out-of-range token
`5`, `readLineIndex` performs the unchecked write `gene_list[5] = 0`
(undefined behaviour on the real `std::vector`; dropped in the model) and
returns a fully formed rank vector instead of failing, and the scorer's
`buff[gene_list1[i]] = i` construction does the same — the comparison is
never failed fast. -/
theorem readLineIndex_out_of_range_silent :
    readLineIndex 2 1 [[2, 2], [5, 1], [0, 1]] = [0, 1] ∧
    buildBuff 2 [5, 1] = [0, 1] := by
  with_unfolding_all decide

/-- Claim C9: the reader does not stop at the selected line and does not
treat a short read as fatal.  With `num_genes = 3` and line 1 holding only
the two tokens `0 1`, the extraction loop continues into the next line:
the returned rank vector `[0, 1, 2]` uses token `2` taken from line 2.
If the file simply ends, the zero-padded partial vector `[0, 1, 0]` is
returned and scoring proceeds on it — there is no failure path. -/
theorem readLineIndex_short_line_not_fatal :
    readLineIndex 3 1 [[3, 2], [0, 1], [2, 0, 1]] = [0, 1, 2] ∧
    readLineIndex 3 1 [[3, 2], [0, 1]] = [0, 1, 0] := by
  with_unfolding_all decide

/-- Claim C10: `rvalue` starts at `0.0` and each update
`rvalue = nvalue > rvalue ? nvalue : rvalue` can only increase it, so for
any pivot and any pair of rank vectors with `num_genes ≥ 1` the final
`rvalue` and the returned `rvalue * sqrt(num_genes)` are non-negative. -/
theorem scoreLists_nonneg (n wp : ℕ) (gl0 gl1 : List ℕ) (_hn : 1 ≤ n) :
    0 ≤ scoreRvalue n wp gl0 gl1 ∧
    0 ≤ (scoreRvalue n wp gl0 gl1 : ℝ) * Real.sqrt n := by
  have h : 0 ≤ scoreRvalue n wp gl0 gl1 := by
    rw [scoreRvalue_eq_foldl, foldl_rmax_eq_max]
    exact init_le_foldl_max _ 0
  exact ⟨h, mul_nonneg (by exact_mod_cast h) (Real.sqrt_nonneg _)⟩

/-- Witness for claim C10 at `num_genes = 2`, pivot `0`, the maximally
disagreeing pair `[0,1]` versus `[1,0]`. -/
theorem scoreLists_nonneg_witness :
    0 ≤ scoreRvalue 2 0 [0, 1] [1, 0] ∧
    0 ≤ (scoreRvalue 2 0 [0, 1] [1, 0] : ℝ) * Real.sqrt ((2 : ℕ) : ℝ) :=
  scoreLists_nonneg 2 0 [0, 1] [1, 0] (by decide)
